import Mathlib

/-!
Verification of the patchwork tree-sitter external scanner
(src/tree-sitter/src/scanner.c).

The scanner state and the eight token classifiers are embedded shallowly.
Machine integers are modelled as `Nat` with explicit `% 2^w` at the points
where the C code can wrap (the `uint16_t` per-region brace counters and the
`uint8_t` interpolation counter).  The lexer cursor handed to the scanner by
tree-sitter is modelled by `TSLexer`: the not-yet-advanced input (a list of code
points, `0` standing for the end-of-input lookahead), the number of
characters advanced normally, the number advanced with the skip flag, and
the position recorded by the last `mark_end` call, if any.

The prompt-depth stack `prompt_depths` is kept innermost-first (the list
head is the top of the stack, i.e. `prompt_depths[prompt_depth_count-1]` of
the C array); serialization, which walks the C array outermost-first,
reverses accordingly.
-/

/-- The eight token kinds of `enum TokenType` in scanner.c. -/
inductive TokenType where
  | PROMPT_START
  | PROMPT_END
  | PROMPT_TEXT
  | PROMPT_ESCAPE
  | PROMPT_INTERPOLATION_START
  | PROMPT_INTERPOLATION_END
  | PROMPT_DO
  | STATEMENT_TERMINATOR
deriving DecidableEq, Repr

/-- The `Scanner` struct: region stack (head = innermost region, each entry a
`uint16_t` brace counter), the `uint8_t` interpolation counter, and the
line-start flag. -/
structure Scanner where
  prompt_depths : List Nat
  interpolation_depth : Nat
  at_line_start : Bool
deriving DecidableEq, Repr

/-- `reset_state`: zero the stack and the interpolation counter, set the
line-start flag to `true` (scanner.c lines 36-40). -/
def reset_state : Scanner := ⟨[], 0, true⟩

/-- `push_prompt`: push a fresh region with brace counter 1 when below the
64-region capacity (the push is silently dropped at capacity), and set the
line-start flag. -/
def push_prompt (s : Scanner) : Scanner :=
  { s with
    prompt_depths :=
      if s.prompt_depths.length < 64 then 1 :: s.prompt_depths else s.prompt_depths,
    at_line_start := true }

/-- `pop_prompt`: drop the innermost region when the stack is non-empty. -/
def pop_prompt (s : Scanner) : Scanner :=
  { s with prompt_depths := s.prompt_depths.tail }

/-- `is_identifier_continue`: `iswalnum(c) || c == '_'`, modelled over the
ASCII range (digits, upper-case and lower-case letters, underscore). -/
def is_identifier_continue (c : Nat) : Bool :=
  decide ((48 ≤ c ∧ c ≤ 57) ∨ (65 ≤ c ∧ c ≤ 90) ∨ (97 ≤ c ∧ c ≤ 122) ∨ c = 95)

/-- The lexer cursor: remaining input, characters consumed (plain `advance`),
characters skipped (`advance` with the skip flag), and the consumed-count at
the last `mark_end`, if any. -/
structure TSLexer where
  rest : List Nat
  consumed : Nat
  skipped : Nat
  marked : Option Nat
deriving DecidableEq, Repr

/-- `lexer->lookahead` over a raw list: the head, or 0 at end of input. -/
def look (l : List Nat) : Nat := l.headD 0

/-- `lexer->lookahead` for a cursor. -/
def TSLexer.look (lx : TSLexer) : Nat := lx.rest.headD 0

/-- `lexer->advance(lexer, false)`. -/
def TSLexer.adv (lx : TSLexer) : TSLexer :=
  match lx.rest with
  | [] => lx
  | _ :: t => { lx with rest := t, consumed := lx.consumed + 1 }

/-- `lexer->mark_end(lexer)`. -/
def TSLexer.mark (lx : TSLexer) : TSLexer := { lx with marked := some lx.consumed }

/-- Advance `n` characters, calling `mark_end` after each (the shape of every
consuming loop in `scan_prompt_do`). -/
def TSLexer.advMarkN : TSLexer → Nat → TSLexer
  | lx, 0 => lx
  | lx, Nat.succ k => TSLexer.advMarkN lx.adv.mark k

/-- Length of the leading run of space, tab, and form-feed characters skipped
by `scan_prompt_start`. -/
def wsSkipCount : List Nat → Nat
  | c :: rest => if c = 32 ∨ c = 9 ∨ c = 12 then wsSkipCount rest + 1 else 0
  | [] => 0

/-- Length of the leading run of space and tab characters consumed by the
indentation loops of `scan_prompt_do`. -/
def indentCount : List Nat → Nat
  | c :: rest => if c = 32 ∨ c = 9 then indentCount rest + 1 else 0
  | [] => 0

/-- Number of characters before the end of the current physical line: the
`while (lookahead && lookahead != '\n' && lookahead != '\r')` loop bound of
the `emit_line_as_text` path in `scan_prompt_do`. -/
def lineLen : List Nat → Nat
  | [] => 0
  | c :: rest => if c = 0 ∨ c = 10 ∨ c = 13 then 0 else lineLen rest + 1

/-- The newline loop of `scan_statement_terminator`: consume CR (optionally
followed by LF) or LF repeatedly; returns the number of characters consumed
and the remaining input. -/
def newlineRun : List Nat → Nat × List Nat
  | 13 :: 10 :: rest => ((newlineRun rest).1 + 2, (newlineRun rest).2)
  | 13 :: rest => ((newlineRun rest).1 + 1, (newlineRun rest).2)
  | 10 :: rest => ((newlineRun rest).1 + 1, (newlineRun rest).2)
  | input => (0, input)

/-- `scan_statement_terminator` (scanner.c lines 70-93): consume a maximal
run of line breaks; succeed iff at least one was consumed.  Note the C code
performs no region check here. -/
def scan_statement_terminator (s : Scanner) (lx : TSLexer) :
    Option (TokenType × Scanner) × TSLexer :=
  if (newlineRun lx.rest).1 = 0 then (none, lx)
  else
    (some (TokenType.STATEMENT_TERMINATOR, s),
     { lx with
       rest := (newlineRun lx.rest).2,
       consumed := lx.consumed + (newlineRun lx.rest).1 })

/-- `scan_prompt_start` (scanner.c lines 95-116): legal only with no region
open; skip horizontal whitespace with the skip flag, then require a `{`. -/
def scan_prompt_start (s : Scanner) (lx : TSLexer) :
    Option (TokenType × Scanner) × TSLexer :=
  if 0 < s.prompt_depths.length then (none, lx)
  else
    let lx1 : TSLexer :=
      { lx with
        rest := lx.rest.drop (wsSkipCount lx.rest),
        skipped := lx.skipped + wsSkipCount lx.rest }
    if lx1.look = 123 then (some (TokenType.PROMPT_START, push_prompt s), lx1.adv)
    else (none, lx1)

/-- `scan_prompt_end` (scanner.c lines 118-128): legal only when the innermost
region has brace counter exactly 1 and the next character is `}`. -/
def scan_prompt_end (s : Scanner) (lx : TSLexer) :
    Option (TokenType × Scanner) × TSLexer :=
  match s.prompt_depths with
  | [] => (none, lx)
  | d :: _ =>
    if d ≠ 1 ∨ lx.look ≠ 125 then (none, lx)
    else (some (TokenType.PROMPT_END, pop_prompt s), lx.adv)

/-- `scan_prompt_escape` (scanner.c lines 130-155): inside a region, match the
exact four-character pattern dollar, quote, any non-NUL character, quote. -/
def scan_prompt_escape (s : Scanner) (lx : TSLexer) :
    Option (TokenType × Scanner) × TSLexer :=
  if s.prompt_depths.length = 0 ∨ lx.look ≠ 36 then (none, lx)
  else
    let lx1 := lx.adv
    if lx1.look ≠ 39 then (none, lx1)
    else
      let lx2 := lx1.adv
      if lx2.look = 0 then (none, lx2)
      else
        let lx3 := lx2.adv
        if lx3.look ≠ 39 then (none, lx3)
        else
          (some (TokenType.PROMPT_ESCAPE, { s with at_line_start := false }),
           lx3.adv.mark)

/-- `scan_prompt_interpolation_start` (scanner.c lines 157-173): inside a
region, match `${`, increment the `uint8_t` interpolation counter. -/
def scan_prompt_interpolation_start (s : Scanner) (lx : TSLexer) :
    Option (TokenType × Scanner) × TSLexer :=
  if s.prompt_depths.length = 0 ∨ lx.look ≠ 36 then (none, lx)
  else
    let lx1 := lx.adv
    if lx1.look ≠ 123 then (none, lx1)
    else
      (some (TokenType.PROMPT_INTERPOLATION_START,
        { s with
          interpolation_depth := (s.interpolation_depth + 1) % 256,
          at_line_start := false }),
       lx1.adv.mark)

/-- `scan_prompt_interpolation_end` (scanner.c lines 175-186): when the
interpolation counter is positive and the next character is `}`, decrement
the counter and consume the `}`. -/
def scan_prompt_interpolation_end (s : Scanner) (lx : TSLexer) :
    Option (TokenType × Scanner) × TSLexer :=
  if s.interpolation_depth = 0 ∨ lx.look ≠ 125 then (none, lx)
  else
    (some (TokenType.PROMPT_INTERPOLATION_END,
      { s with
        interpolation_depth := s.interpolation_depth - 1,
        at_line_start := false }),
     lx.adv.mark)

/-- The `emit_line_as_text` label of `scan_prompt_do` (scanner.c lines
240-264): consume the rest of the physical line, fold a trailing CR, CRLF or
LF into the token and set the line-start flag if one was present. -/
def emit_line_as_text (s : Scanner) (lx : TSLexer) :
    Option (TokenType × Scanner) × TSLexer :=
  let lx1 := lx.advMarkN (lineLen lx.rest)
  if lx1.look = 13 then
    let lx2 := lx1.adv.mark
    if lx2.look = 10 then
      (some (TokenType.PROMPT_TEXT, { s with at_line_start := true }), lx2.adv.mark)
    else
      (some (TokenType.PROMPT_TEXT, { s with at_line_start := true }), lx2)
  else if lx1.look = 10 then
    (some (TokenType.PROMPT_TEXT, { s with at_line_start := true }), lx1.adv.mark)
  else
    (some (TokenType.PROMPT_TEXT, { s with at_line_start := false }), lx1)

/-- `scan_prompt_do` (scanner.c lines 188-265): at the start of a line inside
a region, consume indentation; if the next character is not the keyword
letter 100, emit the indentation (if any) as text; otherwise try to match
the two keyword letters not followed by an identifier character, skip
trailing indentation and require `{`; on any validation failure fall back to
emitting the rest of the line as text. -/
def scan_prompt_do (s : Scanner) (lx : TSLexer) :
    Option (TokenType × Scanner) × TSLexer :=
  if s.prompt_depths.length = 0 ∨ s.at_line_start = false then (none, lx)
  else
    let lx1 := lx.mark.advMarkN (indentCount lx.rest)
    if lx1.look ≠ 100 then
      if 0 < indentCount lx.rest then
        (some (TokenType.PROMPT_TEXT, { s with at_line_start := true }), lx1)
      else (none, lx1)
    else
      let lx2 := lx1.adv.mark
      if lx2.look ≠ 111 then emit_line_as_text s lx2
      else
        let lx3 := lx2.adv.mark
        if is_identifier_continue lx3.look then emit_line_as_text s lx3
        else
          let lx4 := lx3.advMarkN (indentCount lx3.rest)
          if lx4.look = 123 then
            (some (TokenType.PROMPT_DO, { s with at_line_start := false }), lx4)
          else emit_line_as_text s lx4

/-- Result of the accumulation loop of `scan_prompt_text`: final brace
counter of the innermost region, final line-start flag, number of characters
consumed, remaining input. -/
structure TextOut where
  depth : Nat
  ls : Bool
  n : Nat
  rest : List Nat
deriving DecidableEq, Repr

/-- The `for (;;)` loop of `scan_prompt_text` (scanner.c lines 279-335),
parametrised by the innermost brace counter and the line-start flag.  The
branch order follows the C code: end of input; line break (consumed, ends
the token); space and tab (consumed, flag untouched); dollar (stop); `}`
(stop at counter 1, otherwise decrement the `uint16_t` counter and consume);
`{` (increment the counter and consume); any other character (consume). -/
def text_loop : Nat → Bool → List Nat → TextOut
  | depth, ls, [] => ⟨depth, ls, 0, []⟩
  | depth, ls, c :: rest =>
    if c = 0 then ⟨depth, ls, 0, c :: rest⟩
    else if c = 10 then ⟨depth, true, 1, rest⟩
    else if c = 13 then
      match rest with
      | 10 :: rest2 => ⟨depth, true, 2, rest2⟩
      | _ => ⟨depth, true, 1, rest⟩
    else if c = 32 ∨ c = 9 then
      let r := text_loop depth ls rest
      ⟨r.depth, r.ls, r.n + 1, r.rest⟩
    else if c = 36 then ⟨depth, ls, 0, c :: rest⟩
    else if c = 125 then
      if depth = 1 then ⟨depth, ls, 0, c :: rest⟩
      else
        let r := text_loop ((depth + 65535) % 65536) false rest
        ⟨r.depth, r.ls, r.n + 1, r.rest⟩
    else if c = 123 then
      let r := text_loop ((depth + 1) % 65536) false rest
      ⟨r.depth, r.ls, r.n + 1, r.rest⟩
    else
      let r := text_loop depth false rest
      ⟨r.depth, r.ls, r.n + 1, r.rest⟩

/-- `scan_prompt_text` (scanner.c lines 267-345): requires an open region,
runs the accumulation loop on its brace counter, succeeds iff at least one
character was consumed. -/
def scan_prompt_text (s : Scanner) (lx : TSLexer) :
    Option (TokenType × Scanner) × TSLexer :=
  match s.prompt_depths with
  | [] => (none, lx)
  | d :: ds =>
    let r := text_loop d s.at_line_start lx.rest
    if r.n = 0 then (none, lx)
    else
      (some (TokenType.PROMPT_TEXT,
        { s with prompt_depths := r.depth :: ds, at_line_start := r.ls }),
       { lx with
         rest := r.rest,
         consumed := lx.consumed + r.n,
         marked := some (lx.consumed + r.n) })

/-- Run a classifier only when its token kind is in the valid-symbol mask;
an invalid classifier neither matches nor moves the cursor. -/
def runIf (b : Bool) (f : Scanner → TSLexer → Option (TokenType × Scanner) × TSLexer)
    (s : Scanner) (lx : TSLexer) : Option (TokenType × Scanner) × TSLexer :=
  if b then f s lx else (none, lx)

/-- First-match dispatch: keep the cursor produced by a failed classifier
(the C lexer is never rewound between attempts). -/
def tryOr (r : Option (TokenType × Scanner) × TSLexer)
    (k : TSLexer → Option (TokenType × Scanner) × TSLexer) :
    Option (TokenType × Scanner) × TSLexer :=
  match r with
  | (some t, lx2) => (some t, lx2)
  | (none, lx2) => k lx2

/-- The scan entry point (scanner.c lines 414-460): the priority-ordered
dispatch over the eight classifiers, gated by the valid-symbol mask. -/
def scan (s : Scanner) (valid : TokenType → Bool) (lx : TSLexer) :
    Option (TokenType × Scanner) × TSLexer :=
  tryOr (runIf (valid TokenType.PROMPT_START) scan_prompt_start s lx) fun lx1 =>
  tryOr (runIf (valid TokenType.PROMPT_INTERPOLATION_END)
      scan_prompt_interpolation_end s lx1) fun lx2 =>
  tryOr (runIf (valid TokenType.PROMPT_END) scan_prompt_end s lx2) fun lx3 =>
  tryOr (runIf (valid TokenType.PROMPT_INTERPOLATION_START)
      scan_prompt_interpolation_start s lx3) fun lx4 =>
  tryOr (runIf (valid TokenType.PROMPT_ESCAPE) scan_prompt_escape s lx4) fun lx5 =>
  tryOr (runIf (valid TokenType.STATEMENT_TERMINATOR)
      scan_statement_terminator s lx5) fun lx6 =>
  tryOr (runIf (valid TokenType.PROMPT_DO) scan_prompt_do s lx6) fun lx7 =>
  runIf (valid TokenType.PROMPT_TEXT) scan_prompt_text s lx7

/-- Little-endian two-byte encoding of the stack entries, outermost first
(the serialize loop body, scanner.c lines 376-380). -/
def encodeEntries : List Nat → List Nat
  | [] => []
  | d :: rest => d % 256 :: d / 256 % 256 :: encodeEntries rest

/-- The serialize entry point (scanner.c lines 363-382): count byte,
interpolation byte, line-start byte, then the two-byte entries outermost
first. -/
def serialize (s : Scanner) : List Nat :=
  s.prompt_depths.length % 256 :: s.interpolation_depth % 256 ::
    (if s.at_line_start then 1 else 0) :: encodeEntries s.prompt_depths.reverse

/-- The deserialize entry loop (scanner.c lines 403-411): read up to `count`
two-byte little-endian entries, stopping as soon as fewer than two bytes
remain. -/
def readEntries : Nat → List Nat → List Nat
  | 0, _ => []
  | Nat.succ k, lo :: hi :: rest => (lo % 256 + 256 * (hi % 256)) :: readEntries k rest
  | Nat.succ _, [] => []
  | Nat.succ _, [_] => []

/-- The deserialize entry point (scanner.c lines 384-412): reset, then read
the count byte, and while bytes remain the interpolation byte, the
line-start byte, and the stack entries.  The count is taken from the buffer
unvalidated; only missing trailing bytes clamp it. -/
def deserialize (buffer : List Nat) : Scanner :=
  match buffer with
  | [] => reset_state
  | [b0] =>
    { prompt_depths := (readEntries (b0 % 256) []).reverse,
      interpolation_depth := 0, at_line_start := true }
  | [b0, b1] =>
    { prompt_depths := (readEntries (b0 % 256) []).reverse,
      interpolation_depth := b1 % 256, at_line_start := true }
  | b0 :: b1 :: b2 :: rest =>
    { prompt_depths := (readEntries (b0 % 256) rest).reverse,
      interpolation_depth := b1 % 256, at_line_start := b2 % 256 != 0 }

/-- The valid-symbol mask with every token kind permitted. -/
def allValid : TokenType → Bool := fun _ => true

/-- The valid-symbol mask permitting only the region-start token. -/
def startOnly : TokenType → Bool := fun t => decide (t = TokenType.PROMPT_START)

/-! ### Serialization lemmas -/

theorem readEntries_nil (c : Nat) : readEntries c [] = [] := by
  cases c <;> rfl

theorem readEntries_encode (l : List Nat) (h : ∀ d ∈ l, d < 65536) :
    readEntries l.length (encodeEntries l) = l := by
  induction l with
  | nil => rfl
  | cons d t ih =>
    have hd : d < 65536 := h d (by simp)
    have ht : ∀ x ∈ t, x < 65536 := fun x hx => h x (by simp [hx])
    simp only [List.length_cons, encodeEntries, readEntries, ih ht,
      List.cons.injEq, and_true]
    omega

theorem readEntries_length (c : Nat) (bytes : List Nat) :
    (readEntries c bytes).length = min c (bytes.length / 2) := by
  induction c generalizing bytes with
  | zero => simp [readEntries]
  | succ k ih =>
    match bytes with
    | [] => simp [readEntries]
    | [b] => simp [readEntries]
    | lo :: hi :: rest =>
      simp only [readEntries, List.length_cons, ih rest]
      omega

/-- C1: for every scanner state with stack length at most 64 and in-range
counters (16-bit brace counters, 8-bit interpolation counter), deserialize
inverts serialize exactly. -/
theorem serialize_roundtrip (s : Scanner)
    (hlen : s.prompt_depths.length ≤ 64)
    (hdep : ∀ d ∈ s.prompt_depths, d < 65536)
    (hint : s.interpolation_depth < 256) :
    deserialize (serialize s) = s := by
  obtain ⟨depths, interp, als⟩ := s
  simp only [serialize, deserialize]
  have hlen2 : depths.length % 256 = depths.length := by
    apply Nat.mod_eq_of_lt; simp at hlen; omega
  have hrev : ∀ d ∈ depths.reverse, d < 65536 := by
    intro d hd
    exact hdep d (List.mem_reverse.mp hd)
  have hread : readEntries (depths.length % 256) (encodeEntries depths.reverse) =
      depths.reverse := by
    rw [hlen2, ← List.length_reverse depths]
    exact readEntries_encode depths.reverse hrev
  simp only [Scanner.mk.injEq] at *
  refine ⟨?_, ?_, ?_⟩
  · simp [hread]
  · simp [Nat.mod_eq_of_lt hint]
  · cases als <;> simp

/-- Witness for C1 at the concrete state with stack `[300, 1]`,
interpolation counter 5, line-start flag false. -/
theorem serialize_roundtrip_witness :
    deserialize (serialize ⟨[300, 1], 5, false⟩) = ⟨[300, 1], 5, false⟩ :=
  serialize_roundtrip ⟨[300, 1], 5, false⟩ (by decide) (by decide) (by decide)

/-- C3: deserialize of an empty buffer is the fully reset state, and for
every buffer the reconstructed stack length is the declared count clamped to
the number of complete two-byte entries the buffer holds after the three
header bytes. -/
theorem deserialize_prefix_clamp :
    deserialize [] = reset_state ∧
    ∀ (buffer : List Nat),
      (deserialize buffer).prompt_depths.length =
        min (buffer.headD 0 % 256) ((buffer.length - 3) / 2) := by
  refine ⟨rfl, ?_⟩
  intro buffer
  match buffer with
  | [] => simp [deserialize, reset_state]
  | [b0] => simp [deserialize, readEntries_nil]
  | [b0, b1] => simp [deserialize, readEntries_nil]
  | b0 :: b1 :: b2 :: rest =>
    simp only [deserialize, List.length_reverse, readEntries_length,
      List.headD_cons, List.length_cons]
    omega

/-- C4: evaluating deserialize at a corrupt buffer whose declared count byte
is 65 and which carries 130 entry bytes: the code accepts the count
unvalidated and builds a 65-entry stack, past the 64-region capacity (in the
C code this writes past the end of the `prompt_depths` array). -/
theorem deserialize_count_overflow :
    (deserialize (65 :: 0 :: 1 :: List.replicate 130 1)).prompt_depths.length = 65 ∧
    ¬ (deserialize (65 :: 0 :: 1 :: List.replicate 130 1)).prompt_depths.length ≤ 64 := by
  constructor <;> decide

/-- C8 counterexample: reset does not zero the line-start flag; it sets it. -/
theorem reset_line_flag_counterexample : ¬ (reset_state.at_line_start = false) := by
  decide

/-- C8 amended: reset zeroes the stack length and the interpolation counter
and sets the line-start flag to true. -/
theorem reset_zeroes_counters :
    reset_state.prompt_depths.length = 0 ∧
    reset_state.interpolation_depth = 0 ∧
    reset_state.at_line_start = true := by
  decide


/-! ### Statement terminator -/

theorem newlineRun_crlf (rest : List Nat) :
    newlineRun (13 :: 10 :: rest) = ((newlineRun rest).1 + 2, (newlineRun rest).2) := by
  simp [newlineRun]

theorem newlineRun_cr (c : Nat) (t : List Nat) (h : c ≠ 10) :
    newlineRun (13 :: c :: t) = ((newlineRun (c :: t)).1 + 1, (newlineRun (c :: t)).2) := by
  simp [newlineRun, h]

theorem newlineRun_cr_nil : newlineRun [13] = (1, []) := by
  simp [newlineRun]

theorem newlineRun_lf (rest : List Nat) :
    newlineRun (10 :: rest) = ((newlineRun rest).1 + 1, (newlineRun rest).2) := by
  simp [newlineRun]

theorem newlineRun_stop (c : Nat) (rest : List Nat) (h13 : c ≠ 13) (h10 : c ≠ 10) :
    newlineRun (c :: rest) = (0, c :: rest) := by
  simp [newlineRun, h13, h10]

theorem newlineRun_spec_aux : ∀ (n : Nat) (l : List Nat), l.length ≤ n →
    (newlineRun l).2 = l.drop (newlineRun l).1 ∧
    (∀ c ∈ l.take (newlineRun l).1, c = 10 ∨ c = 13) ∧
    look (newlineRun l).2 ≠ 10 ∧ look (newlineRun l).2 ≠ 13 ∧
    ((newlineRun l).1 = 0 ↔ (look l ≠ 10 ∧ look l ≠ 13)) := by
  intro n
  induction n with
  | zero =>
    intro l hl
    have : l = [] := List.length_eq_zero.mp (Nat.le_zero.mp hl)
    subst this
    simp [newlineRun, look]
  | succ k ih =>
    intro l hl
    match l with
    | [] => simp [newlineRun, look]
    | c :: rest =>
      by_cases hc13 : c = 13
      · subst hc13
        match rest with
        | [] =>
          rw [newlineRun_cr_nil]
          simp [look]
        | c2 :: rest2 =>
          by_cases hc2 : c2 = 10
          · subst hc2
            have h := ih rest2 (by simp at hl ⊢; omega)
            rw [newlineRun_crlf]
            refine ⟨?_, ?_, h.2.2.1, h.2.2.2.1, ?_⟩
            · show (newlineRun rest2).2 =
                List.drop ((newlineRun rest2).1 + 1 + 1) (13 :: 10 :: rest2)
              simpa using h.1
            · intro c hc
              rw [show (newlineRun rest2).1 + 2 = (newlineRun rest2).1 + 1 + 1 from rfl,
                List.take_succ_cons, List.take_succ_cons] at hc
              simp only [List.mem_cons] at hc
              rcases hc with hc | hc | hc
              · right; exact hc
              · left; exact hc
              · exact h.2.1 c hc
            · simp [look]
          · have h := ih (c2 :: rest2) (by simp at hl ⊢; omega)
            rw [newlineRun_cr c2 rest2 hc2]
            refine ⟨?_, ?_, h.2.2.1, h.2.2.2.1, ?_⟩
            · simpa using h.1
            · intro c hc
              rw [List.take_succ_cons] at hc
              simp only [List.mem_cons] at hc
              rcases hc with hc | hc
              · right; exact hc
              · exact h.2.1 c hc
            · simp [look]
      · by_cases hc10 : c = 10
        · subst hc10
          have h := ih rest (by simp at hl ⊢; omega)
          rw [newlineRun_lf]
          refine ⟨?_, ?_, h.2.2.1, h.2.2.2.1, ?_⟩
          · simpa using h.1
          · intro c hc
            rw [List.take_succ_cons] at hc
            simp only [List.mem_cons] at hc
            rcases hc with hc | hc
            · left; exact hc
            · exact h.2.1 c hc
          · simp [look]
        · rw [newlineRun_stop c rest hc13 hc10]
          simp [look, hc13, hc10]

theorem newlineRun_spec (l : List Nat) :
    (newlineRun l).2 = l.drop (newlineRun l).1 ∧
    (∀ c ∈ l.take (newlineRun l).1, c = 10 ∨ c = 13) ∧
    look (newlineRun l).2 ≠ 10 ∧ look (newlineRun l).2 ≠ 13 ∧
    ((newlineRun l).1 = 0 ↔ (look l ≠ 10 ∧ look l ≠ 13)) :=
  newlineRun_spec_aux l.length l le_rfl

/-- C5 counterexample: with one region open (state `⟨[1], 0, false⟩`), every
token kind permitted, and the input a single LF, the dispatch emits a
statement-terminator token instead of declining, because
`scan_statement_terminator` performs no region check. -/
theorem statement_terminator_inside_region_counterexample :
    (scan ⟨[1], 0, false⟩ allValid (TSLexer.mk [10] 0 0 none)).1 =
      some (TokenType.STATEMENT_TERMINATOR, ⟨[1], 0, false⟩) := by
  decide

/-- C5 amended: the statement-terminator classifier performs no region check
of its own (restriction to outside-region contexts is left to the valid
token mask supplied by the grammar); whenever attempted it consumes the
maximal run of line breaks, emits one token spanning the whole run, succeeds
iff at least one line break is present, and leaves the scanner state
untouched. -/
theorem statement_terminator_run (s : Scanner) (input : List Nat) :
    (scan_statement_terminator s (TSLexer.mk input 0 0 none) =
      if (newlineRun input).1 = 0 then (none, TSLexer.mk input 0 0 none)
      else (some (TokenType.STATEMENT_TERMINATOR, s),
            TSLexer.mk (input.drop (newlineRun input).1) (newlineRun input).1 0 none)) ∧
    (∀ c ∈ input.take (newlineRun input).1, c = 10 ∨ c = 13) ∧
    look (input.drop (newlineRun input).1) ≠ 10 ∧
    look (input.drop (newlineRun input).1) ≠ 13 ∧
    ((newlineRun input).1 = 0 ↔ (look input ≠ 10 ∧ look input ≠ 13)) := by
  have h := newlineRun_spec input
  refine ⟨?_, h.2.1, h.1 ▸ h.2.2.1, h.1 ▸ h.2.2.2.1, h.2.2.2.2⟩
  by_cases h0 : (newlineRun input).1 = 0
  · simp [scan_statement_terminator, h0]
  · simp [scan_statement_terminator, h0, h.1]

/-- Witness for C5 at state `⟨[], 0, true⟩` and input CR LF CR LF `a`: one
token spanning the four line-break characters is emitted. -/
theorem statement_terminator_run_witness :
    scan_statement_terminator ⟨[], 0, true⟩ (TSLexer.mk [13, 10, 13, 10, 97] 0 0 none) =
      (some (TokenType.STATEMENT_TERMINATOR, ⟨[], 0, true⟩),
       TSLexer.mk [97] 4 0 none) := by
  have h := (statement_terminator_run ⟨[], 0, true⟩ [13, 10, 13, 10, 97]).1
  exact h.trans (by decide)

/-! ### Interpolation end priority and escape -/

/-- C6: whenever the interpolation counter is positive, the next character is
`}`, and the interpolation-end token is permitted (whatever else the mask
permits, in particular the region-end token), the dispatch emits an
interpolation-end token and decrements the counter by one; the region-end
token is never produced in this configuration. -/
theorem interpolation_end_priority (s : Scanner) (valid : TokenType → Bool)
    (input : List Nat)
    (h1 : 0 < s.interpolation_depth) (h2 : look input = 125)
    (h3 : valid TokenType.PROMPT_INTERPOLATION_END = true) :
    scan s valid (TSLexer.mk input 0 0 none) =
      (some (TokenType.PROMPT_INTERPOLATION_END,
        { s with
          interpolation_depth := s.interpolation_depth - 1,
          at_line_start := false }),
       TSLexer.mk input.tail 1 0 (some 1)) := by
  match input with
  | [] => simp [look] at h2
  | c :: t =>
    have hc : c = 125 := by simpa [look] using h2
    subst hc
    have hstart : scan_prompt_start s (TSLexer.mk (125 :: t) 0 0 none) =
        (none, TSLexer.mk (125 :: t) 0 0 none) := by
      by_cases hd : 0 < s.prompt_depths.length
      · simp [scan_prompt_start, hd]
      · simp [scan_prompt_start, hd, wsSkipCount, TSLexer.look]
    have hend : scan_prompt_interpolation_end s (TSLexer.mk (125 :: t) 0 0 none) =
        (some (TokenType.PROMPT_INTERPOLATION_END,
          { s with
            interpolation_depth := s.interpolation_depth - 1,
            at_line_start := false }),
         TSLexer.mk t 1 0 (some 1)) := by
      have : ¬ (s.interpolation_depth = 0 ∨
          (TSLexer.mk (125 :: t) 0 0 none).look ≠ 125) := by
        simp [TSLexer.look]
        omega
      simp [scan_prompt_interpolation_end, this, TSLexer.adv, TSLexer.mark]
    by_cases hps : valid TokenType.PROMPT_START
    · simp [scan, runIf, tryOr, hps, h3, hstart, hend]
    · simp [scan, runIf, tryOr, hps, h3, hend]

/-- Witness for C6 at state `⟨[1], 2, true⟩`, all tokens permitted, input
`}a`: the interpolation-end token is emitted and the counter drops to 1. -/
theorem interpolation_end_priority_witness :
    scan ⟨[1], 2, true⟩ allValid (TSLexer.mk [125, 97] 0 0 none) =
      (some (TokenType.PROMPT_INTERPOLATION_END, ⟨[1], 1, false⟩),
       TSLexer.mk [97] 1 0 (some 1)) := by
  have h := interpolation_end_priority ⟨[1], 2, true⟩ allValid [125, 97]
    (by decide) (by decide) (by decide)
  exact h.trans (by decide)

/-- C9: with at least one region open, running the escape classifier on input
beginning dollar, quote, any non-NUL character, quote emits one escape token
consuming exactly those four characters, and the region stack — in
particular the innermost brace counter — and the interpolation counter are
unchanged; only the line-start flag is cleared. -/
theorem escape_preserves_stack (s : Scanner) (c : Nat) (rest : List Nat)
    (hs : s.prompt_depths ≠ []) (hc : c ≠ 0) :
    scan_prompt_escape s (TSLexer.mk (36 :: 39 :: c :: 39 :: rest) 0 0 none) =
      (some (TokenType.PROMPT_ESCAPE, { s with at_line_start := false }),
       TSLexer.mk rest 4 0 (some 4)) := by
  have hlen : ¬ (s.prompt_depths.length = 0 ∨
      (TSLexer.mk (36 :: 39 :: c :: 39 :: rest) 0 0 none).look ≠ 36) := by
    simp [TSLexer.look, List.length_eq_zero]
    exact hs
  simp [scan_prompt_escape, hlen, TSLexer.adv, TSLexer.look, TSLexer.mark, hc, hs]

/-- Witness for C9: scanning the escape for a literal `{` (input `$'{'`) in
state `⟨[3], 1, true⟩` leaves the brace counter at 3. -/
theorem escape_preserves_stack_witness :
    scan_prompt_escape ⟨[3], 1, true⟩ (TSLexer.mk [36, 39, 123, 39] 0 0 none) =
      (some (TokenType.PROMPT_ESCAPE, ⟨[3], 1, false⟩),
       TSLexer.mk [] 4 0 (some 4)) := by
  have h := escape_preserves_stack ⟨[3], 1, true⟩ 123 [] (by decide) (by decide)
  exact h.trans (by decide)

/-! ### The nested-block-keyword classifier and indentation fallback -/

theorem advMarkN_append (ws : List Nat) :
    ∀ (rest : List Nat) (n sk : Nat),
    TSLexer.advMarkN ⟨ws ++ rest, n, sk, some n⟩ ws.length =
      ⟨rest, n + ws.length, sk, some (n + ws.length)⟩ := by
  induction ws with
  | nil => intro rest n sk; simp [TSLexer.advMarkN]
  | cons c t ih =>
    intro rest n sk
    have h1 : (TSLexer.mk (c :: t ++ rest) n sk (some n)).adv.mark =
        ⟨t ++ rest, n + 1, sk, some (n + 1)⟩ := by
      simp [TSLexer.adv, TSLexer.mark]
    show TSLexer.advMarkN ⟨c :: t ++ rest, n, sk, some n⟩ (t.length + 1) =
      ⟨rest, n + (t.length + 1), sk, some (n + (t.length + 1))⟩
    rw [TSLexer.advMarkN, h1, ih rest (n + 1) sk,
      show n + 1 + t.length = n + (t.length + 1) from by omega]

theorem indentCount_append (ws : List Nat) :
    ∀ (rest : List Nat), (∀ c ∈ ws, c = 32 ∨ c = 9) →
    look rest ≠ 32 → look rest ≠ 9 →
    indentCount (ws ++ rest) = ws.length := by
  induction ws with
  | nil =>
    intro rest _ h32 h9
    match rest with
    | [] => rfl
    | c :: t =>
      simp only [look, List.headD_cons] at h32 h9
      simp [indentCount, h32, h9]
  | cons c t ih =>
    intro rest hall h32 h9
    have hc : c = 32 ∨ c = 9 := hall c (by simp)
    have ht : ∀ x ∈ t, x = 32 ∨ x = 9 := fun x hx => hall x (by simp [hx])
    simp [indentCount, hc, ih rest ht h32 h9]

/-- C7 counterexample: inside a region at line start, on input space `x` LF,
the classifier emits a text token covering only the single consumed
indentation character (the marked end is 1 and the `x` LF remainder of the
line stays unconsumed), while the claim requires the token to cover the
whole rest of the physical line. -/
theorem prompt_do_indent_counterexample :
    scan_prompt_do ⟨[1], 0, true⟩ (TSLexer.mk [32, 120, 10] 0 0 none) =
      (some (TokenType.PROMPT_TEXT, ⟨[1], 0, true⟩),
       TSLexer.mk [120, 10] 1 0 (some 1)) ∧
    lineLen [120, 10] ≠ 0 := by
  decide

/-- C7 amended: inside a region with the cursor at line start, when nonempty
indentation is consumed and the first character after it is not the keyword
letter 100, the classifier emits a plain-text token covering only the
consumed indentation, leaving the rest of the line unconsumed and the
line-start flag still set. -/
theorem prompt_do_indent_only_text (s : Scanner) (ws rest : List Nat)
    (hs : s.prompt_depths ≠ []) (hls : s.at_line_start = true)
    (hws : ws ≠ []) (hall : ∀ c ∈ ws, c = 32 ∨ c = 9)
    (h32 : look rest ≠ 32) (h9 : look rest ≠ 9) (h100 : look rest ≠ 100) :
    scan_prompt_do s (TSLexer.mk (ws ++ rest) 0 0 none) =
      (some (TokenType.PROMPT_TEXT, { s with at_line_start := true }),
       TSLexer.mk rest ws.length 0 (some ws.length)) := by
  have hguard : ¬ (s.prompt_depths.length = 0 ∨ s.at_line_start = false) := by
    simp [List.length_eq_zero, hls]
    exact hs
  have hic : indentCount (ws ++ rest) = ws.length :=
    indentCount_append ws rest hall h32 h9
  have hmark : (TSLexer.mk (ws ++ rest) 0 0 none).mark =
      ⟨ws ++ rest, 0, 0, some 0⟩ := by simp [TSLexer.mark]
  have hadv : TSLexer.advMarkN ⟨ws ++ rest, 0, 0, some 0⟩ ws.length =
      ⟨rest, ws.length, 0, some ws.length⟩ := by
    have := advMarkN_append ws rest 0 0
    simpa using this
  have hpos : 0 < ws.length := List.length_pos.mpr hws
  simp only [scan_prompt_do, hguard, if_false, hmark, hic, hadv]
  have hlook : (TSLexer.mk rest ws.length 0 (some ws.length)).look ≠ 100 := by
    simpa [TSLexer.look, look] using h100
  simp [hlook, hpos, hic]

/-- Witness for C7 at state `⟨[5], 2, true⟩` and input tab space `.` LF: the
token covers exactly the two indentation characters. -/
theorem prompt_do_indent_only_text_witness :
    scan_prompt_do ⟨[5], 2, true⟩ (TSLexer.mk ([9, 32] ++ [46, 10]) 0 0 none) =
      (some (TokenType.PROMPT_TEXT, ⟨[5], 2, true⟩),
       TSLexer.mk [46, 10] 2 0 (some 2)) := by
  have h := prompt_do_indent_only_text ⟨[5], 2, true⟩ [9, 32] [46, 10]
    (by decide) (by decide) (by decide) (by decide) (by decide) (by decide) (by decide)
  exact h.trans (by decide)

theorem emit_line_as_text_not_do (s : Scanner) (lx : TSLexer)
    (t : Scanner) (lx2 : TSLexer) :
    emit_line_as_text s lx ≠ (some (TokenType.PROMPT_DO, t), lx2) := by
  intro h
  simp only [emit_line_as_text] at h
  split at h <;> split at h <;> simp at h

theorem scan_prompt_do_promptdo_inv (s s2 : Scanner) (lx lx2 : TSLexer)
    (h : scan_prompt_do s lx = (some (TokenType.PROMPT_DO, s2), lx2)) :
    s2.prompt_depths = s.prompt_depths ∧ s.prompt_depths ≠ [] := by
  by_cases hg : s.prompt_depths.length = 0 ∨ s.at_line_start = false
  · rw [scan_prompt_do, if_pos hg] at h
    simp at h
  · have hne : s.prompt_depths ≠ [] := by
      intro hnil
      exact hg (Or.inl (by simp [hnil]))
    refine ⟨?_, hne⟩
    simp only [scan_prompt_do, hg, if_false] at h
    split at h
    · split at h <;> simp_all
    · split at h
      · exact absurd h (emit_line_as_text_not_do s _ s2 lx2)
      · split at h
        · exact absurd h (emit_line_as_text_not_do s _ s2 lx2)
        · split at h
          · simp only [Prod.mk.injEq, Option.some.injEq] at h
            rw [← h.1.2]
          · exact absurd h (emit_line_as_text_not_do s _ s2 lx2)

/-- C2 counterexample: from state `⟨[1], 0, true⟩` (one region open, at line
start) on input `do {}`, the classifier emits the keyword token, but the
follow-up scan at the `{` emits no region-start token: with only region
start permitted it declines outright, and with every token permitted the `{`
is consumed as region text (the brace counter path), so no second region is
ever pushed. -/
theorem prompt_do_then_start_counterexample :
    scan_prompt_do ⟨[1], 0, true⟩ (TSLexer.mk [100, 111, 32, 123, 125] 0 0 none) =
      (some (TokenType.PROMPT_DO, ⟨[1], 0, false⟩),
       TSLexer.mk [123, 125] 3 0 (some 3)) ∧
    (scan ⟨[1], 0, false⟩ startOnly (TSLexer.mk [123, 125] 0 0 none)).1 = none ∧
    (scan ⟨[1], 0, false⟩ allValid (TSLexer.mk [123, 125] 0 0 none)).1 =
      some (TokenType.PROMPT_TEXT, ⟨[1], 0, false⟩) := by
  decide

/-- C2 amended: after a nested-block-keyword token is emitted (which requires
an open region and leaves the region stack unchanged), a subsequent scan at
the following position with only the region-start token permitted declines:
`scan_prompt_start` is legal only when no region is open, so the dispatch
never pushes a nested region. -/
theorem prompt_do_then_start_declines (s s2 : Scanner) (lx lx2 : TSLexer)
    (h : scan_prompt_do s lx = (some (TokenType.PROMPT_DO, s2), lx2)) :
    (scan s2 startOnly (TSLexer.mk lx2.rest 0 0 none)).1 = none := by
  obtain ⟨hdep, hne⟩ := scan_prompt_do_promptdo_inv s s2 lx lx2 h
  have hlen : 0 < s2.prompt_depths.length := by
    rw [hdep]
    exact List.length_pos.mpr hne
  have h1 : scan_prompt_start s2 (TSLexer.mk lx2.rest 0 0 none) =
      (none, TSLexer.mk lx2.rest 0 0 none) := by
    rw [scan_prompt_start, if_pos hlen]
  simp [scan, runIf, tryOr, startOnly, h1]

/-- Witness for C2: the follow-up scan of the counterexample input, obtained
by applying the theorem to the concrete keyword scan. -/
theorem prompt_do_then_start_declines_witness :
    (scan ⟨[1], 0, false⟩ startOnly (TSLexer.mk [123, 125] 0 0 none)).1 = none :=
  prompt_do_then_start_declines ⟨[1], 0, true⟩ ⟨[1], 0, false⟩
    (TSLexer.mk [100, 111, 32, 123, 125] 0 0 none)
    (TSLexer.mk [123, 125] 3 0 (some 3)) (by decide)

/-! ### The text classifier: one line break per token -/

theorem text_loop_lf (d : Nat) (ls : Bool) (rest : List Nat) :
    text_loop d ls (10 :: rest) = ⟨d, true, 1, rest⟩ := by
  simp [text_loop]

theorem text_loop_crlf (d : Nat) (ls : Bool) (rest : List Nat) :
    text_loop d ls (13 :: 10 :: rest) = ⟨d, true, 2, rest⟩ := by
  simp [text_loop]

theorem text_loop_cr_nil (d : Nat) (ls : Bool) :
    text_loop d ls [13] = ⟨d, true, 1, []⟩ := by
  simp [text_loop]

theorem text_loop_cr (d : Nat) (ls : Bool) (c2 : Nat) (t : List Nat) (h : c2 ≠ 10) :
    text_loop d ls (13 :: c2 :: t) = ⟨d, true, 1, c2 :: t⟩ := by
  simp [text_loop, h]

theorem text_loop_break_step (c : Nat) (rest : List Nat) (r : TextOut)
    (hc : c ≠ 10 ∧ c ≠ 13)
    (hr : (∀ x ∈ rest.take r.n, x ≠ 10 ∧ x ≠ 13) ∨
      (∃ pre brk, rest.take r.n = pre ++ brk ∧ (∀ x ∈ pre, x ≠ 10 ∧ x ≠ 13) ∧
        (brk = [10] ∨ brk = [13] ∨ brk = [13, 10]) ∧ r.ls = true)) :
    (∀ x ∈ (c :: rest).take (r.n + 1), x ≠ 10 ∧ x ≠ 13) ∨
    (∃ pre brk, (c :: rest).take (r.n + 1) = pre ++ brk ∧
      (∀ x ∈ pre, x ≠ 10 ∧ x ≠ 13) ∧
      (brk = [10] ∨ brk = [13] ∨ brk = [13, 10]) ∧ r.ls = true) := by
  rcases hr with h | ⟨pre, brk, heq, hpre, hbrk, hls⟩
  · left
    intro x hx
    rw [List.take_succ_cons] at hx
    rcases List.mem_cons.mp hx with hx | hx
    · exact hx ▸ hc
    · exact h x hx
  · right
    refine ⟨c :: pre, brk, ?_, ?_, hbrk, hls⟩
    · rw [List.take_succ_cons, heq]
      rfl
    · intro x hx
      rcases List.mem_cons.mp hx with hx | hx
      · exact hx ▸ hc
      · exact hpre x hx

theorem text_loop_break_structure :
    ∀ (n : Nat) (l : List Nat), l.length ≤ n → ∀ (d : Nat) (ls : Bool),
    (∀ c ∈ l.take (text_loop d ls l).n, c ≠ 10 ∧ c ≠ 13) ∨
    (∃ pre brk, l.take (text_loop d ls l).n = pre ++ brk ∧
      (∀ c ∈ pre, c ≠ 10 ∧ c ≠ 13) ∧
      (brk = [10] ∨ brk = [13] ∨ brk = [13, 10]) ∧
      (text_loop d ls l).ls = true) := by
  intro n
  induction n with
  | zero =>
    intro l hl d ls
    have : l = [] := List.length_eq_zero.mp (Nat.le_zero.mp hl)
    subst this
    left
    simp [text_loop]
  | succ k ih =>
    intro l hl d ls
    match l with
    | [] => left; simp [text_loop]
    | c :: rest =>
      have hrest : rest.length ≤ k := by simp at hl; omega
      by_cases hc0 : c = 0
      · subst hc0; left; simp [text_loop]
      · by_cases hc10 : c = 10
        · subst hc10
          rw [text_loop_lf]
          exact Or.inr ⟨[], [10], by simp, by simp, by simp, rfl⟩
        · by_cases hc13 : c = 13
          · subst hc13
            match rest with
            | [] =>
              rw [text_loop_cr_nil]
              exact Or.inr ⟨[], [13], by simp, by simp, by simp, rfl⟩
            | c2 :: t =>
              by_cases hc2 : c2 = 10
              · subst hc2
                rw [text_loop_crlf]
                exact Or.inr ⟨[], [13, 10], by simp [List.take_succ_cons], by simp,
                  by simp, rfl⟩
              · rw [text_loop_cr d ls c2 t hc2]
                exact Or.inr ⟨[], [13], by simp, by simp, by simp, rfl⟩
          · by_cases hws : c = 32 ∨ c = 9
            · have hrw : text_loop d ls (c :: rest) =
                  ⟨(text_loop d ls rest).depth, (text_loop d ls rest).ls,
                   (text_loop d ls rest).n + 1, (text_loop d ls rest).rest⟩ := by
                simp [text_loop, hc0, hc10, hc13, hws]
              rw [hrw]
              exact text_loop_break_step c rest (text_loop d ls rest)
                ⟨hc10, hc13⟩ (ih rest hrest d ls)
            · by_cases hc36 : c = 36
              · subst hc36; left; simp [text_loop, hws]
              · by_cases hc125 : c = 125
                · subst hc125
                  by_cases hd1 : d = 1
                  · subst hd1; left; simp [text_loop, hws]
                  · have hrw : text_loop d ls (125 :: rest) =
                        ⟨(text_loop ((d + 65535) % 65536) false rest).depth,
                         (text_loop ((d + 65535) % 65536) false rest).ls,
                         (text_loop ((d + 65535) % 65536) false rest).n + 1,
                         (text_loop ((d + 65535) % 65536) false rest).rest⟩ := by
                      simp [text_loop, hws, hd1]
                    rw [hrw]
                    exact text_loop_break_step 125 rest _
                      ⟨by omega, by omega⟩ (ih rest hrest _ false)
                · by_cases hc123 : c = 123
                  · subst hc123
                    have hrw : text_loop d ls (123 :: rest) =
                        ⟨(text_loop ((d + 1) % 65536) false rest).depth,
                         (text_loop ((d + 1) % 65536) false rest).ls,
                         (text_loop ((d + 1) % 65536) false rest).n + 1,
                         (text_loop ((d + 1) % 65536) false rest).rest⟩ := by
                      simp [text_loop, hws]
                    rw [hrw]
                    exact text_loop_break_step 123 rest _
                      ⟨by omega, by omega⟩ (ih rest hrest _ false)
                  · have hrw : text_loop d ls (c :: rest) =
                        ⟨(text_loop d false rest).depth, (text_loop d false rest).ls,
                         (text_loop d false rest).n + 1, (text_loop d false rest).rest⟩ := by
                      simp [text_loop, hc0, hc10, hc13, hws, hc36, hc125, hc123]
                    rw [hrw]
                    exact text_loop_break_step c rest _
                      ⟨hc10, hc13⟩ (ih rest hrest d false)

/-- C10: every token emitted by the text classifier contains at most one line
break, and when one is present it stands (normalized to LF, CR, or CR LF) at
the very end of the token, with the line-start flag set in the resulting
state; so multi-line raw text is split into one text token per physical
line. -/
theorem prompt_text_single_line_break (s : Scanner) (input : List Nat)
    (t : TokenType × Scanner) (lx2 : TSLexer)
    (h : scan_prompt_text s (TSLexer.mk input 0 0 none) = (some t, lx2)) :
    (∀ c ∈ input.take lx2.consumed, c ≠ 10 ∧ c ≠ 13) ∨
    (∃ pre brk, input.take lx2.consumed = pre ++ brk ∧
      (∀ c ∈ pre, c ≠ 10 ∧ c ≠ 13) ∧
      (brk = [10] ∨ brk = [13] ∨ brk = [13, 10]) ∧
      t.2.at_line_start = true) := by
  rcases hsd : s.prompt_depths with _ | ⟨d, ds⟩
  · rw [scan_prompt_text] at h
    rw [hsd] at h
    simp at h
  · rw [scan_prompt_text] at h
    rw [hsd] at h
    simp only at h
    split at h
    · simp at h
    · simp only [Prod.mk.injEq, Option.some.injEq] at h
      obtain ⟨ht, hlx⟩ := h
      subst ht
      subst hlx
      simpa using
        text_loop_break_structure input.length input le_rfl d s.at_line_start

/-- Witness for C10 at state `⟨[1], 0, false⟩` and input `ab` LF `c`: the
emitted token covers exactly `ab` LF, so the break closes the token. -/
theorem prompt_text_single_line_break_witness :
    (∀ c ∈ List.take 3 [97, 98, 10, 99], c ≠ 10 ∧ c ≠ 13) ∨
    (∃ pre brk, List.take 3 [97, 98, 10, 99] = pre ++ brk ∧
      (∀ c ∈ pre, c ≠ 10 ∧ c ≠ 13) ∧
      (brk = [10] ∨ brk = [13] ∨ brk = [13, 10]) ∧
      (TokenType.PROMPT_TEXT, Scanner.mk [1] 0 true).2.at_line_start = true) :=
  prompt_text_single_line_break ⟨[1], 0, false⟩ [97, 98, 10, 99]
    (TokenType.PROMPT_TEXT, ⟨[1], 0, true⟩) (TSLexer.mk [99] 3 0 (some 3))
    (by decide)
